import Mathlib

/-!
Verification development for the intellij-rust debugger pretty-printers
(`src/prettyPrinters/`).  The Python sources are shallowly embedded:
pure classification code becomes Lean functions, provider objects become
structures whose methods are Lean functions over an explicit memory view,
and Python exceptions (assert failures, dynamic type errors) surface as
`Except` values.
-/

namespace RustPP

/-! ### rust_types.py : the shape classifier -/

/-- The closed enumeration of shape tags (`class RustType` in rust_types.py). -/
inductive RustType where
  | OTHER
  | STRUCT
  | TUPLE
  | CSTYLE_VARIANT
  | TUPLE_VARIANT
  | STRUCT_VARIANT
  | EMPTY
  | SINGLETON_ENUM
  | REGULAR_ENUM
  | COMPRESSED_ENUM
  | REGULAR_UNION
  | STD_VEC
  | STD_STRING
  | STD_STR
deriving DecidableEq, Repr

/-- Python's `$` (outside MULTILINE) matches at the end of the string and
also just before one newline that ends the string.  Stripping that single
optional trailing newline first turns `$` into plain end-of-list. -/
def dollarStrip (cs : List Char) : List Char :=
  if cs.getLast? == some '\n' then cs.dropLast else cs

/-- End-pattern of `STD_VEC_REGEX`: the tail "Vec<.+>$" — literally
"Vec<", then one or more non-newline characters, then ">", then `$`
(end of string or before one trailing newline, hence `dollarStrip`). -/
def vecGenericEnd (cs : List Char) : Bool :=
  (cs.take 4 == ['V', 'e', 'c', '<'])
    && (decide (2 ≤ (dollarStrip (cs.drop 4)).length)
      && ((dollarStrip (cs.drop 4)).getLast? == some '>')
      && (dollarStrip (cs.drop 4)).dropLast.all (fun c => c != '\n'))

/-- End-pattern of `STD_STRING_REGEX`: the tail "String$" — exactly
"String" up to the `$` position (which may sit before one trailing
newline). -/
def stringEnd (cs : List Char) : Bool :=
  dollarStrip cs == "String".toList

/-- Recognizer for the regex fragment "([a-zA-Z]+::)+" followed by an end
pattern.  `inRun = false` means we are at the start of a path segment (at
least one ASCII letter is required); `inRun = true` means at least one
letter of the current segment has been consumed.  After each "::" the
matcher tries the end pattern and also tries to read a further segment,
which is exactly the backtracking the regex engine performs.  Letter runs
are necessarily maximal because the character after "[a-zA-Z]+" must be
':', which is not a letter. -/
def segScan (endCheck : List Char → Bool) : Bool → List Char → Bool
  | _, [] => false
  | _, [_] => false
  | inRun, c :: c2 :: rest =>
    if c = ':' then
      if c2 = ':' then inRun && (endCheck rest || segScan endCheck false rest)
      else false
    else
      c.isAlpha && segScan endCheck true (c2 :: rest)

/-- `STD_VEC_REGEX = re.compile(r"^(alloc::([a-zA-Z]+::)+)Vec<.+>$")`,
as the executable predicate "the whole name matches": the literal prefix
"alloc::" (7 characters) followed by the segment-and-end fragment. -/
def STD_VEC_REGEX (name : String) : Bool :=
  (name.toList.take 7 == "alloc::".toList)
    && segScan vecGenericEnd false (name.toList.drop 7)

/-- `STD_STRING_REGEX = re.compile(r"^(alloc::([a-zA-Z]+::)+)String$")`. -/
def STD_STRING_REGEX (name : String) : Bool :=
  (name.toList.take 7 == "alloc::".toList)
    && segScan stringEnd false (name.toList.drop 7)

/-- `STD_STR_REGEX = re.compile(r"^&str$")`: exactly "&str" up to the
`$` position, which may sit before one trailing newline. -/
def STD_STR_REGEX (name : String) : Bool :=
  dollarStrip name.toList == "&str".toList

/-- `TUPLE_ITEM_REGEX = re.compile(r"__\d+$")`, used through `re.match`,
so it accepts the strings "__" followed by one or more digits.  The
model restricts `\d` to ASCII digits and `$` to exact end (Python also
accepts Unicode digits and a trailing newline); this predicate is only
ever used identically on both sides of the classification equality, and
every evaluated field name is ASCII without a trailing newline. -/
def TUPLE_ITEM_REGEX (s : String) : Bool :=
  match s.toList with
  | '_' :: '_' :: rest => !rest.isEmpty && rest.all Char.isDigit
  | _ => false

/-- `ENUM_DISR_FIELD_NAME` from rust_types.py. -/
def ENUM_DISR_FIELD_NAME : String := "RUST$ENUM$DISR"

/-- The reserved encoded-enum marker (source constant name ends in
the word PREFIX; it is the string every niche-encoded first variant
name starts with). -/
def ENCODED_ENUM_MARKER : String := "RUST$ENCODED$ENUM$"

/-- A field descriptor as the classifier sees it: only the name matters,
and debugger metadata may report it as absent (`None`). -/
structure FieldInfo where
  name : Option String
deriving DecidableEq, Repr

/-- Python's `str(x)` on an optional string (`str(None) == "None"`). -/
def pyStr (x : Option String) : String :=
  match x with
  | none => "None"
  | some s => s

/-- Python's `s.startswith(p)`. -/
def pyStartswith (s p : String) : Bool :=
  p.toList.isPrefixOf s.toList

/-- `is_tuple_fields(fields)`: all field names match the positional
pattern (`str(field.name)` is applied first, as in the source). -/
def is_tuple_fields (fields : List FieldInfo) : Bool :=
  fields.all (fun f => TUPLE_ITEM_REGEX (pyStr f.name))

/-- `classify_struct(name, fields)` from rust_types.py, line for line:
zero fields first, then the three anchored name patterns, then the
discriminant-marker analysis of the first field, then tuple vs struct. -/
def classify_struct (name : String) (fields : List FieldInfo) : RustType :=
  match fields with
  | [] => RustType.EMPTY
  | f0 :: rest =>
    if STD_VEC_REGEX name then RustType.STD_VEC
    else if STD_STRING_REGEX name then RustType.STD_STRING
    else if STD_STR_REGEX name then RustType.STD_STR
    else if f0.name == some ENUM_DISR_FIELD_NAME then
      if rest.isEmpty then RustType.CSTYLE_VARIANT
      else if is_tuple_fields rest then RustType.TUPLE_VARIANT
      else RustType.STRUCT_VARIANT
    else if is_tuple_fields (f0 :: rest) then RustType.TUPLE
    else RustType.STRUCT

/-- A Python exception escaping one of the modelled functions. -/
inductive PyError where
  | assertionError
  | typeError
deriving DecidableEq, Repr

/-- `classify_union(fields)` from rust_types.py.  The source contains
`assert len(fields) == 1` in the encoded-enum branch; a failing assert
raises `AssertionError`, modelled as `Except.error`. -/
def classify_union (fields : List FieldInfo) : Except PyError RustType :=
  match fields with
  | [] => Except.ok RustType.EMPTY
  | f0 :: rest =>
    match f0.name with
    | none =>
      if rest.isEmpty then Except.ok RustType.SINGLETON_ENUM
      else Except.ok RustType.REGULAR_ENUM
    | some n =>
      if pyStartswith n ENCODED_ENUM_MARKER then
        if rest.isEmpty then Except.ok RustType.COMPRESSED_ENUM
        else Except.error PyError.assertionError
      else Except.ok RustType.REGULAR_UNION

/-! Spec-side restatement of the struct-classification cascade, written
from the words of the claim (first-field marker test via `head?`,
"remaining fields after dropping the marker" via `drop 1`, "all
positional" as a direct quantification over the field names).  It is
compared with `classify_struct`, the function embedded from the source. -/

/-- Modelled from the spec: "the first field's name equals the reserved
discriminant marker". -/
def firstFieldIsDisr (fields : List FieldInfo) : Bool :=
  match fields.head? with
  | some f0 => f0.name == some ENUM_DISR_FIELD_NAME
  | none => false

/-- Modelled from the spec: "all positional field names" (every name
matches the reserved positional-index pattern). -/
def allPositional (fields : List FieldInfo) : Bool :=
  fields.all (fun f => TUPLE_ITEM_REGEX (pyStr f.name))

/-- Modelled from the spec: the classification order exactly as the claim
states it. -/
def classifySpecStruct (name : String) (fields : List FieldInfo) : RustType :=
  if fields.isEmpty then RustType.EMPTY
  else if STD_VEC_REGEX name then RustType.STD_VEC
  else if STD_STRING_REGEX name then RustType.STD_STRING
  else if STD_STR_REGEX name then RustType.STD_STR
  else if firstFieldIsDisr fields then
    if (fields.drop 1).isEmpty then RustType.CSTYLE_VARIANT
    else if allPositional (fields.drop 1) then RustType.TUPLE_VARIANT
    else RustType.STRUCT_VARIANT
  else if allPositional fields then RustType.TUPLE
  else RustType.STRUCT

/-- C1.  For every struct type descriptor, classification follows exactly
the order the spec gives: zero fields wins first with EmptyVariant (and a
zero-field union is also EmptyVariant, regardless of anything else), the
full-name container patterns short-circuit next, then the discriminant
marker analysis, then tuple vs plain struct. -/
theorem classify_struct_follows_spec_order :
    (∀ (name : String) (fields : List FieldInfo),
      classify_struct name fields = classifySpecStruct name fields)
    ∧ classify_union [] = Except.ok RustType.EMPTY := by
  refine ⟨fun name fields => ?_, rfl⟩
  cases fields with
  | nil => rfl
  | cons f0 rest => rfl

end RustPP

namespace RustPP

/-! ### Anchoring of the container name patterns (towards C6) -/

/-- A property preserved by adding a head character holds of `l ++ ds`
whenever it holds of `ds`. -/
theorem consClosed_append {P : List Char → Prop}
    (hcons : ∀ c ds, P ds → P (c :: ds)) :
    ∀ (l ds : List Char), P ds → P (l ++ ds) := by
  intro l
  induction l with
  | nil => intro ds h; exact h
  | cons c l ih => intro ds h; exact hcons c _ (ih ds h)

/-- Any property that holds of every list accepted by the end pattern and
is preserved by adding head characters holds of every list accepted by
`segScan` (the matcher only ever prepends path-segment characters in
front of the end pattern). -/
theorem segScan_implies {endCheck : List Char → Bool} {P : List Char → Prop}
    (hend : ∀ ds, endCheck ds = true → P ds)
    (hcons : ∀ c ds, P ds → P (c :: ds)) :
    ∀ (cs : List Char) (flag : Bool), segScan endCheck flag cs = true → P cs := by
  suffices h : ∀ (n : Nat) (cs : List Char), cs.length ≤ n →
      ∀ flag, segScan endCheck flag cs = true → P cs by
    intro cs flag hm
    exact h cs.length cs le_rfl flag hm
  intro n
  induction n with
  | zero =>
    intro cs hle flag hm
    have hnil : cs = [] := List.eq_nil_of_length_eq_zero (Nat.le_zero.mp hle)
    subst hnil
    exact absurd hm (by unfold segScan; simp)
  | succ n ih =>
    intro cs hle flag hm
    cases cs with
    | nil => exact absurd hm (by unfold segScan; simp)
    | cons c cs' =>
      cases cs' with
      | nil => exact absurd hm (by unfold segScan; simp)
      | cons c2 rest =>
        unfold segScan at hm
        by_cases hc : c = ':'
        · rw [if_pos hc] at hm
          by_cases hc2 : c2 = ':'
          · rw [if_pos hc2] at hm
            simp only [Bool.and_eq_true, Bool.or_eq_true] at hm
            have hP : P rest := by
              rcases hm.2 with hm' | hm'
              · exact hend rest hm'
              · have hlen : rest.length ≤ n := by
                  simp only [List.length_cons] at hle
                  omega
                exact ih rest hlen false hm'
            exact hcons c _ (hcons c2 _ hP)
          · rw [if_neg hc2] at hm
            exact absurd hm (by simp)
        · rw [if_neg hc] at hm
          simp only [Bool.and_eq_true] at hm
          have hlen : (c2 :: rest).length ≤ n := by
            simp only [List.length_cons] at hle
            simp only [List.length_cons]
            omega
          exact hcons c _ (ih (c2 :: rest) hlen true hm.2)

/-- A list whose last element is known carries that element as a suffix. -/
theorem suffix_singleton_of_getLast? {l : List Char} {a : Char}
    (h : l.getLast? = some a) : [a] <:+ l := by
  have hne : l ≠ [] := by
    intro hnil
    subst hnil
    simp at h
  have hlast : l.getLast hne = a := by
    have := List.getLast?_eq_getLast l hne
    rw [this] at h
    exact Option.some.inj h
  refine ⟨l.dropLast, ?_⟩
  rw [← hlast]
  exact List.dropLast_append_getLast hne

/-- `dollarStrip` removes either nothing or exactly one trailing
newline: every list is its stripped form, possibly with '\n' back at
the end. -/
theorem dollarStrip_eq_or (l : List Char) :
    l = dollarStrip l ∨ l = dollarStrip l ++ ['\n'] := by
  unfold dollarStrip
  by_cases h : l.getLast? == some '\n'
  · rw [if_pos h]
    right
    simp only [beq_iff_eq] at h
    have hne : l ≠ [] := by
      intro hc
      subst hc
      simp at h
    have hlast : l.getLast hne = '\n' := by
      have hg := List.getLast?_eq_getLast l hne
      rw [hg] at h
      exact Option.some.inj h
    conv_lhs => rw [← List.dropLast_append_getLast hne]
    rw [hlast]
  · rw [if_neg h]
    left
    rfl

/-- Every name accepted by `STD_VEC_REGEX` starts with the crate
qualifier "alloc::" and ends with '>' or with ">" followed by the one
trailing newline that `$` tolerates. -/
theorem STD_VEC_REGEX_anchored {name : String} (hm : STD_VEC_REGEX name = true) :
    name.toList.take 7 = "alloc::".toList
    ∧ (['>'] <:+ name.toList ∨ ['>', '\n'] <:+ name.toList) := by
  unfold STD_VEC_REGEX at hm
  simp only [Bool.and_eq_true, beq_iff_eq] at hm
  obtain ⟨h7, hscan⟩ := hm
  refine ⟨h7, ?_⟩
  have hcons : ∀ (c : Char) (ds : List Char),
      (['>'] <:+ ds ∨ ['>', '\n'] <:+ ds) → (['>'] <:+ c :: ds ∨ ['>', '\n'] <:+ c :: ds) :=
    fun c ds h => h.elim (fun h' => Or.inl (h'.trans (List.suffix_cons c ds)))
      (fun h' => Or.inr (h'.trans (List.suffix_cons c ds)))
  have hend : ∀ ds, vecGenericEnd ds = true → ['>'] <:+ ds ∨ ['>', '\n'] <:+ ds := by
    intro ds hds
    unfold vecGenericEnd at hds
    simp only [Bool.and_eq_true, beq_iff_eq, decide_eq_true_eq] at hds
    obtain ⟨-, ⟨-, hlast⟩, -⟩ := hds
    have hr : ['>'] <:+ dollarStrip (ds.drop 4) := suffix_singleton_of_getLast? hlast
    have hdrop : ds.drop 4 <:+ ds := List.drop_suffix 4 ds
    rcases dollarStrip_eq_or (ds.drop 4) with heq | heq
    · left
      have hr' : ['>'] <:+ ds.drop 4 := by
        rw [heq]
        exact hr
      exact hr'.trans hdrop
    · right
      obtain ⟨s, hs⟩ := hr
      have hsuf : ['>', '\n'] <:+ ds.drop 4 := by
        refine ⟨s, ?_⟩
        rw [heq, ← hs]
        simp
      exact hsuf.trans hdrop
  have hP := segScan_implies hend hcons (name.toList.drop 7) false hscan
  exact hP.elim (fun h => Or.inl (h.trans (List.drop_suffix 7 name.toList)))
    (fun h => Or.inr (h.trans (List.drop_suffix 7 name.toList)))

/-- Every name accepted by `STD_STRING_REGEX` starts with "alloc::" and
ends with the segment "String", possibly followed by the one trailing
newline that `$` tolerates. -/
theorem STD_STRING_REGEX_anchored {name : String} (hm : STD_STRING_REGEX name = true) :
    name.toList.take 7 = "alloc::".toList
    ∧ ("String".toList <:+ name.toList ∨ ("String".toList ++ ['\n']) <:+ name.toList) := by
  unfold STD_STRING_REGEX at hm
  simp only [Bool.and_eq_true, beq_iff_eq] at hm
  obtain ⟨h7, hscan⟩ := hm
  refine ⟨h7, ?_⟩
  have hcons : ∀ (c : Char) (ds : List Char),
      ("String".toList <:+ ds ∨ ("String".toList ++ ['\n']) <:+ ds) →
      ("String".toList <:+ c :: ds ∨ ("String".toList ++ ['\n']) <:+ c :: ds) :=
    fun c ds h => h.elim (fun h' => Or.inl (h'.trans (List.suffix_cons c ds)))
      (fun h' => Or.inr (h'.trans (List.suffix_cons c ds)))
  have hend : ∀ ds, stringEnd ds = true →
      "String".toList <:+ ds ∨ ("String".toList ++ ['\n']) <:+ ds := by
    intro ds hds
    simp only [stringEnd, beq_iff_eq] at hds
    rcases dollarStrip_eq_or ds with heq | heq
    · left
      rw [heq, hds]
    · right
      rw [heq, hds]
  have hP := segScan_implies hend hcons (name.toList.drop 7) false hscan
  exact hP.elim (fun h => Or.inl (h.trans (List.drop_suffix 7 name.toList)))
    (fun h => Or.inr (h.trans (List.drop_suffix 7 name.toList)))

/-- Every name accepted by `STD_STR_REGEX` is "&str" or "&str" plus the
one trailing newline that `$` tolerates. -/
theorem STD_STR_REGEX_anchored {name : String} (hm : STD_STR_REGEX name = true) :
    name = "&str" ∨ name = "&str\n" := by
  simp only [STD_STR_REGEX, beq_iff_eq] at hm
  rcases dollarStrip_eq_or name.toList with heq | heq
  · left
    exact String.ext (heq.trans hm)
  · right
    have h2 : name.toList = "&str\n".toList := by
      rw [heq, hm]
      decide
    exact String.ext h2

/-- A struct classifies `STD_VEC` only through the Vec name pattern. -/
theorem classify_struct_vec_requires_match {name : String} {fields : List FieldInfo}
    (h : classify_struct name fields = RustType.STD_VEC) : STD_VEC_REGEX name = true := by
  cases fields with
  | nil => simp [classify_struct] at h
  | cons f0 rest =>
    by_cases hv : STD_VEC_REGEX name = true
    · exact hv
    · exfalso
      simp only [classify_struct] at h
      rw [if_neg hv] at h
      repeat' first
      | exact absurd h (by decide)
      | split at h

/-- A struct classifies `STD_STRING` only through the String name pattern. -/
theorem classify_struct_string_requires_match {name : String} {fields : List FieldInfo}
    (h : classify_struct name fields = RustType.STD_STRING) : STD_STRING_REGEX name = true := by
  cases fields with
  | nil => simp [classify_struct] at h
  | cons f0 rest =>
    by_cases hs : STD_STRING_REGEX name = true
    · exact hs
    · exfalso
      simp only [classify_struct] at h
      rw [if_neg hs] at h
      repeat' first
      | exact absurd h (by decide)
      | split at h

/-- A struct classifies `STD_STR` only through the &str name pattern. -/
theorem classify_struct_str_requires_match {name : String} {fields : List FieldInfo}
    (h : classify_struct name fields = RustType.STD_STR) : STD_STR_REGEX name = true := by
  cases fields with
  | nil => simp [classify_struct] at h
  | cons f0 rest =>
    by_cases hs : STD_STR_REGEX name = true
    · exact hs
    · exfalso
      simp only [classify_struct] at h
      rw [if_neg hs] at h
      repeat' first
      | exact absurd h (by decide)
      | split at h

/-- C6.  Container name-pattern matching is anchored on the full
qualified type name: a struct can only classify as a container when its
name is a complete crate-qualified standard path — "alloc::..." ending
in ">" for Vec, "alloc::...String" for String, exactly "&str" for a
string slice, in each case up to the single trailing newline Python's
`$` anchor tolerates.  A user type such as "MyVecWrapper" (even with a
field literally named "Vec"), or a name merely containing "Vec" such as
"mycrate::vec::Vec<i32>", classifies as a plain struct; the
newline-suffixed standard names are accepted exactly as the compiled
patterns accept them. -/
theorem container_name_matching_is_anchored :
    (∀ (name : String) (fields : List FieldInfo),
        classify_struct name fields = RustType.STD_VEC →
        name.toList.take 7 = "alloc::".toList
        ∧ (['>'] <:+ name.toList ∨ ['>', '\n'] <:+ name.toList))
    ∧ (∀ (name : String) (fields : List FieldInfo),
        classify_struct name fields = RustType.STD_STRING →
        name.toList.take 7 = "alloc::".toList
        ∧ ("String".toList <:+ name.toList ∨ ("String".toList ++ ['\n']) <:+ name.toList))
    ∧ (∀ (name : String) (fields : List FieldInfo),
        classify_struct name fields = RustType.STD_STR →
        name = "&str" ∨ name = "&str\n")
    ∧ classify_struct "MyVecWrapper" [⟨some "Vec"⟩] = RustType.STRUCT
    ∧ classify_struct "mycrate::vec::Vec<i32>" [⟨some "buf"⟩, ⟨some "len"⟩] = RustType.STRUCT
    ∧ classify_struct "alloc::vec::Vec<i32>" [⟨some "buf"⟩, ⟨some "len"⟩] = RustType.STD_VEC
    ∧ classify_struct "alloc::vec::Vec<i32>\n" [⟨some "buf"⟩, ⟨some "len"⟩] = RustType.STD_VEC
    ∧ classify_struct "alloc::string::String\n" [⟨some "vec"⟩] = RustType.STD_STRING
    ∧ classify_struct "&str\n" [⟨some "data_ptr"⟩, ⟨some "length"⟩] = RustType.STD_STR
    ∧ classify_struct "alloc::vec::Vec<i32>\n\n" [⟨some "buf"⟩, ⟨some "len"⟩] = RustType.STRUCT := by
  refine ⟨?_, ?_, ?_, by decide, by decide, by decide, by decide, by decide, by decide, by decide⟩
  · intro name fields h
    exact STD_VEC_REGEX_anchored (classify_struct_vec_requires_match h)
  · intro name fields h
    exact STD_STRING_REGEX_anchored (classify_struct_string_requires_match h)
  · intro name fields h
    exact STD_STR_REGEX_anchored (classify_struct_str_requires_match h)

/-- C6 witness: the anchoring consequences evaluated at the genuine
standard-library name "alloc::vec::Vec<i32>". -/
theorem container_name_matching_is_anchored_witness :
    ("alloc::vec::Vec<i32>").toList.take 7 = "alloc::".toList
    ∧ (['>'] <:+ ("alloc::vec::Vec<i32>").toList
      ∨ ['>', '\n'] <:+ ("alloc::vec::Vec<i32>").toList) :=
  container_name_matching_is_anchored.1 "alloc::vec::Vec<i32>"
    [⟨some "buf"⟩, ⟨some "len"⟩] (by decide)

/-! ### C7 : totality of classify_union -/

/-- C7 counterexample: a union whose first variant carries the reserved
encoded-enum marker but which has a second variant makes `classify_union`
raise `AssertionError` (the `assert len(fields) == 1` fails), so the
function does not return a tag on every path. -/
theorem classify_union_asserts_on_second_variant :
    classify_union [⟨some "RUST$ENCODED$ENUM$0$None"⟩, ⟨some "other"⟩]
      = Except.error PyError.assertionError := by rfl

/-- C7 (amended).  `classify_union` returns a shape tag without raising
for every union field list that satisfies the encoded-enum invariant the
spec permits (a marker-carrying first variant implies exactly one
variant); in particular a single-variant union whose first variant name
carries the marker classifies as the niche-encoded (compressed) enum
rather than aborting. -/
theorem classify_union_total_on_invariant_inputs :
    ∀ fields : List FieldInfo,
      (∀ f0 n, fields.head? = some f0 → f0.name = some n →
        pyStartswith n ENCODED_ENUM_MARKER = true → fields.length = 1) →
      (∃ t, classify_union fields = Except.ok t)
      ∧ (∀ f0 n, fields.head? = some f0 → f0.name = some n →
          pyStartswith n ENCODED_ENUM_MARKER = true →
          classify_union fields = Except.ok RustType.COMPRESSED_ENUM) := by
  intro fields hinv
  cases fields with
  | nil => exact ⟨⟨RustType.EMPTY, rfl⟩, by intro f0 n h; simp at h⟩
  | cons f0 rest =>
    cases hname : f0.name with
    | none =>
      constructor
      · cases rest with
        | nil => exact ⟨RustType.SINGLETON_ENUM, by simp [classify_union, hname]⟩
        | cons g gs => exact ⟨RustType.REGULAR_ENUM, by simp [classify_union, hname]⟩
      · intro f0' n h0 hn
        have hf : f0' = f0 := by
          simp only [List.head?_cons] at h0
          exact (Option.some.inj h0).symm
        subst hf
        rw [hname] at hn
        exact absurd hn (by simp)
    | some n =>
      by_cases hpre : pyStartswith n ENCODED_ENUM_MARKER = true
      · have hlen : (f0 :: rest).length = 1 := hinv f0 n rfl hname hpre
        have hrest : rest = [] := by
          simp only [List.length_cons] at hlen
          exact List.eq_nil_of_length_eq_zero (by omega)
        subst hrest
        refine ⟨⟨RustType.COMPRESSED_ENUM, ?_⟩, fun f0' n' h0 hn hp => ?_⟩
        · simp [classify_union, hname, hpre]
        · simp [classify_union, hname, hpre]
      · constructor
        · exact ⟨RustType.REGULAR_UNION, by simp [classify_union, hname, hpre]⟩
        · intro f0' n' h0 hn hp
          have hf : f0' = f0 := by
            simp only [List.head?_cons] at h0
            exact (Option.some.inj h0).symm
          subst hf
          rw [hname] at hn
          have hn' : n' = n := (Option.some.inj hn).symm
          subst hn'
          exact absurd hp hpre

/-- C7 witness: the amended theorem applied to the canonical
single-variant niche-encoded union. -/
theorem classify_union_total_witness :
    classify_union [⟨some "RUST$ENCODED$ENUM$0$None"⟩] = Except.ok RustType.COMPRESSED_ENUM :=
  (classify_union_total_on_invariant_inputs [⟨some "RUST$ENCODED$ENUM$0$None"⟩]
      (fun _ _ _ _ _ => rfl)).2
    ⟨some "RUST$ENCODED$ENUM$0$None"⟩ "RUST$ENCODED$ENUM$0$None" rfl rfl (by decide)

end RustPP

namespace RustPP

/-! ### providers.py / gdb_providers.py : container layout decoders -/

/-- Byte order of the debuggee process (`SBProcess.GetByteOrder`). -/
inductive ByteOrder where
  | little
  | big
deriving DecidableEq, Repr

/-- A synthesized display value holding an unsigned integer, as built by
`ValueBuilder.from_uint`: the payload plus the byte order and address
size used to lay out its in-memory representation. -/
structure SynthesizedUInt where
  name : String
  value : Nat
  endianness : ByteOrder
  byteSize : Nat
deriving DecidableEq, Repr

/-- `class ValueBuilder`: captures the process's byte order and address
byte size at construction time. -/
structure ValueBuilder where
  endianness : ByteOrder
  pointer_size : Nat
deriving DecidableEq, Repr

/-- `ValueBuilder.from_uint(name, value)`: creates a plain unsigned
integer display value from the stored byte order and pointer size. -/
def ValueBuilder.from_uint (self : ValueBuilder) (name : String) (value : Nat) :
    SynthesizedUInt :=
  { name := name, value := value, endianness := self.endianness,
    byteSize := self.pointer_size }

/-- The memory/type facade view of a `Vec<T>`: the `len` field and the
base data pointer (reached through the buf → ptr → pointer chain,
`GetChildAtIndex(0)` three levels deep) with its element byte size. -/
structure VecMemory where
  len : Nat
  dataPtr : Nat
  elemSize : Nat
deriving DecidableEq, Repr

/-- Cached decoder state of `StdVecSyntheticProvider` (the fields
assigned by `update`). -/
structure StdVecSyntheticProvider where
  length : Nat
  data_ptr : Nat
  element_type_size : Nat
deriving DecidableEq, Repr

/-- `StdVecSyntheticProvider.update`: every cached field is overwritten
from the current memory view; nothing of the previous state survives. -/
def StdVecSyntheticProvider.update (_self : StdVecSyntheticProvider) (mem : VecMemory) :
    StdVecSyntheticProvider :=
  { length := mem.len, data_ptr := mem.dataPtr, element_type_size := mem.elemSize }

/-- `StdVecSyntheticProvider.num_children`: returns the cached length. -/
def StdVecSyntheticProvider.num_children (self : StdVecSyntheticProvider) : Nat :=
  self.length

/-- A value handle created by `CreateValueFromAddress`. -/
structure SBValueModel where
  name : String
  address : Nat
deriving DecidableEq, Repr

/-- `StdVecSyntheticProvider.get_child_at_index`: the source performs no
bounds check — for any index it synthesizes a value named `[index]` at
`start + index * element_type_size` and returns it. -/
def StdVecSyntheticProvider.get_child_at_index (self : StdVecSyntheticProvider)
    (index : Nat) : Option SBValueModel :=
  some { name := "[" ++ toString index ++ "]",
         address := self.data_ptr + index * self.element_type_size }

/-- gdb_providers.py `StdVecProvider`: length and data pointer read at
construction time. -/
structure StdVecProvider where
  length : Nat
  data_ptr : Nat
  elemSize : Nat
deriving DecidableEq, Repr

/-- `StdVecProvider.__init__`. -/
def StdVecProvider.ofValue (mem : VecMemory) : StdVecProvider :=
  { length := mem.len, data_ptr := mem.dataPtr, elemSize := mem.elemSize }

/-- gdb `StdVecProvider.children()`: yields exactly `length` pairs,
element `i` being `(data_ptr + i).dereference()` — pointer arithmetic
scales by the element size. -/
def StdVecProvider.children (self : StdVecProvider) : List (String × Nat) :=
  (List.range self.length).map
    (fun index => (toString index, self.data_ptr + index * self.elemSize))

/-- C4 counterexample: with logical length 5, `child(5)` on the LLDB
provider does not fail with a not-found result — it returns a value
synthesized one element past the buffer (base 1000, element size 4,
address 1020). -/
theorem vec_child_out_of_range_succeeds :
    (StdVecSyntheticProvider.update ⟨0, 0, 0⟩ ⟨5, 1000, 4⟩).get_child_at_index 5
      = some ⟨"[5]", 1020⟩ := by rfl

/-- C4 (amended).  For every growable array value with logical length L:
`count()` = L and `child(i)` is synthesized at `base + i * element_size`
for 0 ≤ i < L.  For i ≥ L the GDB provider's iterator yields no child
(the children list has exactly L entries), but the LLDB provider's
`get_child_at_index` performs no bounds check and returns a value at
`base + i * element_size` even then; rejecting out-of-range indices is
left to the host through `count()`. -/
theorem vec_count_and_children :
    ∀ (old : StdVecSyntheticProvider) (mem : VecMemory),
      (StdVecSyntheticProvider.update old mem).num_children = mem.len
      ∧ (∀ i : Nat,
          (StdVecSyntheticProvider.update old mem).get_child_at_index i
            = some ⟨"[" ++ toString i ++ "]", mem.dataPtr + i * mem.elemSize⟩)
      ∧ (StdVecProvider.ofValue mem).children.length = mem.len
      ∧ (∀ i : Nat, i < mem.len →
          (StdVecProvider.ofValue mem).children[i]?
            = some (toString i, mem.dataPtr + i * mem.elemSize))
      ∧ (∀ i : Nat, mem.len ≤ i → (StdVecProvider.ofValue mem).children[i]? = none) := by
  intro old mem
  refine ⟨rfl, fun i => rfl, by simp [StdVecProvider.children, StdVecProvider.ofValue], ?_, ?_⟩
  · intro i hi
    simp [StdVecProvider.children, StdVecProvider.ofValue, List.getElem?_map,
      List.getElem?_range, hi]
  · intro i hi
    refine List.getElem?_eq_none ?_
    simpa [StdVecProvider.children, StdVecProvider.ofValue] using hi

/-- C4 witness: the amended statement evaluated at length 5 — count is 5
and the in-range child 4 of the GDB iterator sits at 1000 + 4*4. -/
theorem vec_count_and_children_witness :
    (StdVecSyntheticProvider.update ⟨0, 0, 0⟩ ⟨5, 1000, 4⟩).num_children = 5
    ∧ (StdVecProvider.ofValue ⟨5, 1000, 4⟩).children[4]?
        = some (toString 4, 1000 + 4 * 4) :=
  ⟨(vec_count_and_children ⟨0, 0, 0⟩ ⟨5, 1000, 4⟩).1,
   (vec_count_and_children ⟨0, 0, 0⟩ ⟨5, 1000, 4⟩).2.2.2.1 4 (by decide)⟩

/-- C8.  `refresh`/`update` recomputes all cached state from current
memory: the state after `update` is a function of the memory view alone
(two arbitrary prior cached states update identically), `count()` after
update returns the freshly read length, child addresses derive from the
freshly read base pointer, and in the concrete scenario where the length
field changes from 5 to 3 (and the buffer moves), the queries after the
second refresh serve 3 and the new base — never the stale 5. -/
theorem vec_refresh_recomputes :
    ∀ (old1 old2 : StdVecSyntheticProvider) (mem : VecMemory),
      StdVecSyntheticProvider.update old1 mem = StdVecSyntheticProvider.update old2 mem
      ∧ (StdVecSyntheticProvider.update old1 mem).num_children = mem.len
      ∧ (∀ i : Nat,
          (StdVecSyntheticProvider.update old1 mem).get_child_at_index i
            = some ⟨"[" ++ toString i ++ "]", mem.dataPtr + i * mem.elemSize⟩)
      ∧ ((StdVecSyntheticProvider.update old1 ⟨5, 1000, 4⟩).num_children = 5
        ∧ ((StdVecSyntheticProvider.update old1 ⟨5, 1000, 4⟩).update ⟨3, 2000, 4⟩).num_children = 3
        ∧ ((StdVecSyntheticProvider.update old1 ⟨5, 1000, 4⟩).update ⟨3, 2000, 4⟩).get_child_at_index 0
            = some ⟨"[0]", 2000⟩) :=
  fun _old1 _old2 _mem => ⟨rfl, rfl, fun _i => rfl, rfl, rfl, rfl⟩

end RustPP

namespace RustPP

/-! ### The VecDeque (ring buffer) decoders -/

/-- Python `s.lstrip(c)` with a single strip character: removes every
leading occurrence of `c`. -/
def pyLstrip (c : Char) (s : List Char) : List Char :=
  s.dropWhile (fun a => a == c)

/-- Python `s.rstrip(c)`: removes every trailing occurrence of `c`. -/
def pyRstrip (c : Char) (s : List Char) : List Char :=
  (s.reverse.dropWhile (fun a => a == c)).reverse

/-- Python `s.isdigit()`: nonempty and all digits.  The model restricts
to ASCII digits (Python also accepts other Unicode digit characters);
every input this is evaluated at is ASCII, where the two agree. -/
def pyIsdigit (s : List Char) : Bool :=
  !s.isEmpty && s.all Char.isDigit

/-- Facade view of a `VecDeque<T>`: the `tail`, `head` and `buf.cap`
fields, and the base pointer `buf.ptr` (unwrapped two levels) with the
element byte size. -/
structure VecDequeMemory where
  head : Nat
  tail : Nat
  cap : Nat
  dataPtr : Nat
  elemSize : Nat
deriving DecidableEq, Repr

/-- Cached decoder state of `StdVecDequeSyntheticProvider` (the fields
assigned by `update`).  `size` is a Python integer and may in principle
be negative, hence `Int`. -/
structure StdVecDequeSyntheticProvider where
  head : Nat
  tail : Nat
  cap : Nat
  size : Int
  data_ptr : Nat
  element_type_size : Nat
deriving DecidableEq, Repr

/-- `StdVecDequeSyntheticProvider.update`: re-reads head, tail and cap,
computes `size = head - tail if head >= tail else cap + head - tail`,
and re-reads the base pointer; every cached field is overwritten. -/
def StdVecDequeSyntheticProvider.update (_self : StdVecDequeSyntheticProvider)
    (mem : VecDequeMemory) : StdVecDequeSyntheticProvider :=
  { head := mem.head, tail := mem.tail, cap := mem.cap,
    size := if mem.head ≥ mem.tail then (mem.head : Int) - (mem.tail : Int)
            else (mem.cap : Int) + (mem.head : Int) - (mem.tail : Int),
    data_ptr := mem.dataPtr, element_type_size := mem.elemSize }

/-- `num_children`: the cached logical size. -/
def StdVecDequeSyntheticProvider.num_children (self : StdVecDequeSyntheticProvider) : Int :=
  self.size

/-- `get_child_at_index`: a value named `[index]` synthesized at
`start + ((index + tail) % cap) * element_type_size`. -/
def StdVecDequeSyntheticProvider.get_child_at_index
    (self : StdVecDequeSyntheticProvider) (index : Nat) : SBValueModel :=
  { name := "[" ++ toString index ++ "]",
    address := self.data_ptr + ((index + self.tail) % self.cap) * self.element_type_size }

/-- `get_child_index` of the deque provider.  The source strips the
brackets and evaluates `index.isdigit() and self.tail <= index and
(self.tail + index) % self.cap < self.head` — but `index` is still a
string: for every digit name the comparison of the integer `tail` with
that string raises `TypeError` (in Python 2 the `tail + index` addition
raises it instead), and for a non-digit name the `and` short-circuits to
`False`, returning -1. -/
def StdVecDequeSyntheticProvider.get_child_index
    (_self : StdVecDequeSyntheticProvider) (name : String) : Except PyError Int :=
  let index := pyRstrip ']' (pyLstrip '[' name.toList)
  if pyIsdigit index then Except.error PyError.typeError
  else Except.ok (-1)

/-- gdb_providers.py `StdVecDequeProvider` state, read in `__init__`. -/
structure StdVecDequeProvider where
  head : Nat
  tail : Nat
  cap : Nat
  size : Int
  data_ptr : Nat
  elemSize : Nat
deriving DecidableEq, Repr

/-- gdb `StdVecDequeProvider.__init__`: the same reads and the same size
formula as the LLDB provider's `update`. -/
def StdVecDequeProvider.ofValue (mem : VecDequeMemory) : StdVecDequeProvider :=
  { head := mem.head, tail := mem.tail, cap := mem.cap,
    size := if mem.head ≥ mem.tail then (mem.head : Int) - (mem.tail : Int)
            else (mem.cap : Int) + (mem.head : Int) - (mem.tail : Int),
    data_ptr := mem.dataPtr, elemSize := mem.elemSize }

/-- gdb `children()`: for index in [0, size), the element is
`(data_ptr + ((tail + index) % cap)).dereference()`; pointer arithmetic
scales by the element size. -/
def StdVecDequeProvider.children (self : StdVecDequeProvider) : List (String × Nat) :=
  (List.range self.size.toNat).map
    (fun index =>
      (toString index, self.data_ptr + ((self.tail + index) % self.cap) * self.elemSize))

/-- C2.  For every deque state with head H, tail T, capacity C > 0: the
decoder's logical size is H - T when H ≥ T and C + H - T otherwise, and
child i is located at physical slot (T + i) mod C, i.e. at address
base + ((T + i) mod C) * element_size; for C=4, T=3, H=1 the size is 2,
child 0 maps to slot 3 and child 1 maps to slot 0. -/
theorem deque_size_and_slots :
    ∀ (old : StdVecDequeSyntheticProvider) (mem : VecDequeMemory), 0 < mem.cap →
      ((StdVecDequeSyntheticProvider.update old mem).num_children
          = if mem.head ≥ mem.tail then (mem.head : Int) - (mem.tail : Int)
            else (mem.cap : Int) + (mem.head : Int) - (mem.tail : Int))
      ∧ (∀ i : Nat,
          (StdVecDequeSyntheticProvider.update old mem).get_child_at_index i
            = ⟨"[" ++ toString i ++ "]",
               mem.dataPtr + ((mem.tail + i) % mem.cap) * mem.elemSize⟩)
      ∧ ((StdVecDequeSyntheticProvider.update old ⟨1, 3, 4, 100, 8⟩).num_children = 2
        ∧ (StdVecDequeSyntheticProvider.update old ⟨1, 3, 4, 100, 8⟩).get_child_at_index 0
            = ⟨"[0]", 100 + 3 * 8⟩
        ∧ (StdVecDequeSyntheticProvider.update old ⟨1, 3, 4, 100, 8⟩).get_child_at_index 1
            = ⟨"[1]", 100 + 0 * 8⟩) := by
  intro old mem _hcap
  refine ⟨rfl, ?_, by rfl, by rfl, ?_⟩
  case refine_2 =>
    simp [StdVecDequeSyntheticProvider.update, StdVecDequeSyntheticProvider.get_child_at_index]
    decide
  intro i
  simp [StdVecDequeSyntheticProvider.get_child_at_index,
    StdVecDequeSyntheticProvider.update, Nat.add_comm]

/-- C2 witness: the size and slot statements evaluated at the concrete
wraparound state capacity 4, tail 3, head 1. -/
theorem deque_size_and_slots_witness :
    0 < (4 : Nat)
    ∧ (StdVecDequeSyntheticProvider.update ⟨0, 0, 0, 0, 0, 0⟩ ⟨1, 3, 4, 100, 8⟩).num_children = 2 :=
  ⟨by decide,
   (deque_size_and_slots ⟨0, 0, 0, 0, 0, 0⟩ ⟨1, 3, 4, 100, 8⟩ (by decide)).2.2.1⟩

/-- C5.  Evaluating the deque name-to-index lookup: for the state
head=1, tail=0, cap=4, the bracketed numeric name "[0]" denotes index 0,
which satisfies the claimed wraparound validity test
(tail ≤ 0 and (tail + 0) mod cap < head), yet `get_child_index` raises
TypeError because the stripped index string is never converted to an
integer before being compared with `tail`; a non-digit name still
returns the sentinel -1. -/
theorem deque_get_child_index_raises :
    ((StdVecDequeSyntheticProvider.update ⟨0, 0, 0, 0, 0, 0⟩ ⟨1, 0, 4, 100, 8⟩).get_child_index "[0]"
        = Except.error PyError.typeError)
    ∧ ((StdVecDequeSyntheticProvider.update ⟨0, 0, 0, 0, 0, 0⟩ ⟨1, 0, 4, 100, 8⟩).tail ≤ 0
      ∧ ((StdVecDequeSyntheticProvider.update ⟨0, 0, 0, 0, 0, 0⟩ ⟨1, 0, 4, 100, 8⟩).tail + 0)
          % (StdVecDequeSyntheticProvider.update ⟨0, 0, 0, 0, 0, 0⟩ ⟨1, 0, 4, 100, 8⟩).cap
        < (StdVecDequeSyntheticProvider.update ⟨0, 0, 0, 0, 0, 0⟩ ⟨1, 0, 4, 100, 8⟩).head)
    ∧ ((StdVecDequeSyntheticProvider.update ⟨0, 0, 0, 0, 0, 0⟩ ⟨1, 0, 4, 100, 8⟩).get_child_index "value"
        = Except.ok (-1)) :=
  ⟨rfl, by decide, rfl⟩

/-- C10.  The GDB and LLDB deque decoders are equivalent embeddings of
the same layout: from the same memory view they compute the identical
logical size, and for every logical index the LLDB child address equals
the address the GDB iterator dereferences (same base pointer, same
physical slot (T + i) mod C). -/
theorem deque_gdb_lldb_equivalent :
    ∀ (mem : VecDequeMemory), 0 < mem.cap →
      ((StdVecDequeSyntheticProvider.update ⟨0, 0, 0, 0, 0, 0⟩ mem).size
          = (StdVecDequeProvider.ofValue mem).size)
      ∧ (∀ i : Nat,
          ((StdVecDequeSyntheticProvider.update ⟨0, 0, 0, 0, 0, 0⟩ mem).get_child_at_index i).address
            = (StdVecDequeProvider.ofValue mem).data_ptr
                + ((mem.tail + i) % mem.cap) * mem.elemSize)
      ∧ (∀ i : Nat, i < (StdVecDequeProvider.ofValue mem).size.toNat →
          (StdVecDequeProvider.ofValue mem).children[i]?
            = some (toString i,
                ((StdVecDequeSyntheticProvider.update ⟨0, 0, 0, 0, 0, 0⟩ mem).get_child_at_index i).address)) := by
  intro mem _hcap
  refine ⟨rfl, ?_, ?_⟩
  · intro i
    simp [StdVecDequeSyntheticProvider.get_child_at_index,
      StdVecDequeSyntheticProvider.update, StdVecDequeProvider.ofValue, Nat.add_comm]
  · intro i hi
    simp only [StdVecDequeProvider.children, List.getElem?_map, List.getElem?_range, hi,
      if_pos, Option.map_some]
    simp [StdVecDequeSyntheticProvider.get_child_at_index,
      StdVecDequeSyntheticProvider.update, StdVecDequeProvider.ofValue, Nat.add_comm]

/-- C10 witness: equivalence evaluated at the wraparound state
capacity 4, tail 3, head 1. -/
theorem deque_gdb_lldb_equivalent_witness :
    (StdVecDequeSyntheticProvider.update ⟨0, 0, 0, 0, 0, 0⟩ ⟨1, 3, 4, 100, 8⟩).size
      = (StdVecDequeProvider.ofValue ⟨1, 3, 4, 100, 8⟩).size :=
  (deque_gdb_lldb_equivalent ⟨1, 3, 4, 100, 8⟩ (by decide)).1

end RustPP

namespace RustPP

/-! ### The reference-counted box decoder (Rc / Arc) -/

/-- Facade view of an `Rc<T>`/`Arc<T>` inner block: the strong and weak
counters, the wrapped payload, and the process properties captured by
the `ValueBuilder`. -/
structure RcMemory (V : Type) where
  strong : Nat
  weak : Nat
  value : V
  byteOrder : ByteOrder
  pointerSize : Nat

/-- `StdRcSummaryProvider`: the text "strong={}, weak={}" formatted with
the two counters read from the value. -/
def StdRcSummaryProvider (strong weak : Nat) : String :=
  "strong=" ++ toString strong ++ ", weak=" ++ toString weak

/-- Cached state of `StdRcSyntheticProvider`: the payload handle, the
counter values read by `update`, and the `ValueBuilder` constructed from
the process. -/
structure StdRcSyntheticProvider (V : Type) where
  value : V
  strong_count : Nat
  weak_count : Nat
  value_builder : ValueBuilder

/-- `StdRcSyntheticProvider.__init__` followed by `update`. -/
def StdRcSyntheticProvider.ofValue {V : Type} (mem : RcMemory V) :
    StdRcSyntheticProvider V :=
  { value := mem.value, strong_count := mem.strong, weak_count := mem.weak,
    value_builder := { endianness := mem.byteOrder, pointer_size := mem.pointerSize } }

/-- `num_children`: only the `value` child is advertised. -/
def StdRcSyntheticProvider.num_children {V : Type} (_self : StdRcSyntheticProvider V) : Nat :=
  1

/-- `get_child_index`: "value" → 0, "strong" → 1, "weak" → 2, else -1. -/
def StdRcSyntheticProvider.get_child_index {V : Type} (_self : StdRcSyntheticProvider V)
    (name : String) : Int :=
  if name = "value" then 0
  else if name = "strong" then 1
  else if name = "weak" then 2
  else -1

/-- What `get_child_at_index` can return: the payload handle, a
synthesized integer, or `None`. -/
inductive RcChild (V : Type) where
  | payload (v : V)
  | synthesized (u : SynthesizedUInt)
  | absent
deriving DecidableEq, Repr

/-- `get_child_at_index`: index 0 is the wrapped payload; 1 and 2 are the
strong/weak counters synthesized through `ValueBuilder.from_uint`; any
other index returns `None`. -/
def StdRcSyntheticProvider.get_child_at_index {V : Type} (self : StdRcSyntheticProvider V)
    (index : Nat) : RcChild V :=
  if index = 0 then RcChild.payload self.value
  else if index = 1 then
    RcChild.synthesized (self.value_builder.from_uint "strong" self.strong_count)
  else if index = 2 then
    RcChild.synthesized (self.value_builder.from_uint "weak" self.weak_count)
  else RcChild.absent

/-- C9.  For every reference-counted box with strong count s and weak
count w: the summary text is "strong=s, weak=w" and contains both
rendered counters; the child named "value" resolves to index 0 and child
0 is the wrapped payload; the strong and weak children, when requested,
are synthesized unsigned integer values built from the process's byte
order and address size; concretely, counts 3 and 1 give the summary
"strong=3, weak=1". -/
theorem rc_summary_and_children :
    ∀ (V : Type) (mem : RcMemory V),
      (StdRcSummaryProvider mem.strong mem.weak
          = "strong=" ++ toString mem.strong ++ ", weak=" ++ toString mem.weak)
      ∧ ((toString mem.strong).toList <:+: (StdRcSummaryProvider mem.strong mem.weak).toList)
      ∧ ((toString mem.weak).toList <:+: (StdRcSummaryProvider mem.strong mem.weak).toList)
      ∧ ((StdRcSyntheticProvider.ofValue mem).get_child_index "value" = 0)
      ∧ ((StdRcSyntheticProvider.ofValue mem).num_children = 1)
      ∧ ((StdRcSyntheticProvider.ofValue mem).get_child_at_index 0 = RcChild.payload mem.value)
      ∧ ((StdRcSyntheticProvider.ofValue mem).get_child_at_index 1
          = RcChild.synthesized ⟨"strong", mem.strong, mem.byteOrder, mem.pointerSize⟩)
      ∧ ((StdRcSyntheticProvider.ofValue mem).get_child_at_index 2
          = RcChild.synthesized ⟨"weak", mem.weak, mem.byteOrder, mem.pointerSize⟩)
      ∧ StdRcSummaryProvider 3 1 = "strong=3, weak=1" := by
  intro V mem
  refine ⟨rfl, ?_, ?_, rfl, rfl, rfl, rfl, rfl, by decide⟩
  · refine ⟨"strong=".toList, (", weak=" ++ toString mem.weak).toList, ?_⟩
    simp [StdRcSummaryProvider, String.toList]
  · refine ⟨("strong=" ++ toString mem.strong ++ ", weak=").toList, [], ?_⟩
    simp [StdRcSummaryProvider, String.toList]

end RustPP

namespace RustPP

/-! ### The ordered tree map decoder (BTreeMap) -/

/-- A B-tree node as `children_of_node` sees it through the facade:
`keys` and `vals` are the `len` valid entries of the node's parallel
arrays (`len` is the node's length field, i.e. `keys.length` here), and
`edges` is the child-edge array, read only when the height is
positive. -/
inductive BNode (K V : Type) where
  | mk (keys : List K) (vals : List V) (edges : List (BNode K V))

/-- The source's `if i < length: yield (key_i, val_i)` step: the pair at
index `i` when it exists, nothing at `i = length`. -/
def entryAt {K V : Type} (keys : List K) (vals : List V) (i : Nat) : List (K × V) :=
  match keys[i]?, vals[i]? with
  | some k, some v => [(k, v)]
  | _, _ => []

/-- `children_of_node(node, height, want_values=True)` from providers.py:
for i in 0..=len, recurse into edge i first when the node is internal
(height > 0), then yield key/value pair i when i < len. -/
def children_of_node {K V : Type} : Nat → BNode K V → List (K × V)
  | 0, .mk keys vals _ =>
    (List.range (keys.length + 1)).flatMap (fun i => entryAt keys vals i)
  | h + 1, .mk keys vals edges =>
    (List.range (keys.length + 1)).flatMap (fun i =>
      (match edges[i]? with
       | some e => children_of_node h e
       | none => []) ++ entryAt keys vals i)

/-- Facade view of a `BTreeMap<K, V>`: the root node and the stored
height. -/
structure BTreeMemory (K V : Type) where
  root : BNode K V
  height : Nat

/-- Cached state of `StdBTreeMapSyntheticProvider` as set by `update`. -/
structure StdBTreeMapSyntheticProvider (K V : Type) where
  keys : List K
  values : List V
  length : Nat

/-- `StdBTreeMapSyntheticProvider.update`: re-runs the traversal and
stores the parallel key/value lists; `length = len(self.values)`. -/
def StdBTreeMapSyntheticProvider.update {K V : Type}
    (_self : StdBTreeMapSyntheticProvider K V) (mem : BTreeMemory K V) :
    StdBTreeMapSyntheticProvider K V :=
  let cs := children_of_node mem.height mem.root
  { keys := cs.map Prod.fst, values := cs.map Prod.snd,
    length := (cs.map Prod.snd).length }

/-- `num_children`: the cached length. -/
def StdBTreeMapSyntheticProvider.num_children {K V : Type}
    (self : StdBTreeMapSyntheticProvider K V) : Nat :=
  self.length

/-- `get_child_at_index`: returns only the key side (the source has a
TODO to return both). -/
def StdBTreeMapSyntheticProvider.get_child_at_index {K V : Type}
    (self : StdBTreeMapSyntheticProvider K V) (index : Nat) : Option K :=
  self.keys[index]?

/-! The search-tree invariant, decidably.  `lbOkB lo k` / `ubOkB k hi`
express "k is above the optional lower bound / below the optional upper
bound"; `wfNode` requires parallel arrays, strictly increasing keys
within each node, node keys inside the bounds, and, for internal nodes,
len+1 edges whose subtrees are well-formed between the adjacent keys. -/

/-- Strictly increasing key list, as a Bool. -/
def boolChain {K : Type} [LinearOrder K] : List K → Bool
  | [] => true
  | [_] => true
  | a :: b :: rest => decide (a < b) && boolChain (b :: rest)

/-- Above the optional strict lower bound. -/
def lbOkB {K : Type} [LinearOrder K] (lo : Option K) (k : K) : Bool :=
  match lo with
  | none => true
  | some l => decide (l < k)

/-- Below the optional strict upper bound. -/
def ubOkB {K : Type} [LinearOrder K] (k : K) (hi : Option K) : Bool :=
  match hi with
  | none => true
  | some u => decide (k < u)

/-- The ordering invariant of the structure itself ("the structure's own
ordering invariant" of the claim), bounded by `lo` and `hi`. -/
def wfNode {K V : Type} [LinearOrder K] : Nat → BNode K V → Option K → Option K → Bool
  | 0, .mk keys vals _, lo, hi =>
    (vals.length == keys.length) && boolChain keys
      && keys.all (fun k => lbOkB lo k && ubOkB k hi)
  | h + 1, .mk keys vals edges, lo, hi =>
    (vals.length == keys.length) && boolChain keys
      && keys.all (fun k => lbOkB lo k && ubOkB k hi)
      && (edges.length == keys.length + 1)
      && (List.range (keys.length + 1)).all (fun i =>
        match edges[i]? with
        | some e =>
          wfNode h e (if i = 0 then lo else keys[i - 1]?)
            (if i = keys.length then hi else keys[i]?)
        | none => false)

/-- `boolChain` is `Chain' (· < ·)`. -/
theorem boolChain_chain' {K : Type} [LinearOrder K] :
    ∀ {l : List K}, boolChain l = true ↔ List.Chain' (· < ·) l := by
  intro l
  induction l with
  | nil => simp [boolChain]
  | cons a t ih =>
    cases t with
    | nil => simp [boolChain]
    | cons b r =>
      simp only [boolChain, Bool.and_eq_true, decide_eq_true_eq, List.chain'_cons, ih]

/-- A `boolChain` key list is pairwise increasing. -/
theorem boolChain_pairwise {K : Type} [LinearOrder K] {l : List K}
    (h : boolChain l = true) : l.Pairwise (· < ·) :=
  List.chain'_iff_pairwise.mp (boolChain_chain'.mp h)

/-- An element of an `entryAt` block is the key at that index. -/
theorem mem_entryAt {K V : Type} {keys : List K} {vals : List V} {i : Nat} {p : K × V}
    (hp : p ∈ entryAt keys vals i) :
    ∃ h : i < keys.length, p.1 = keys[i] := by
  unfold entryAt at hp
  cases hk : keys[i]? with
  | none => rw [hk] at hp; cases hp
  | some k =>
    rw [hk] at hp
    cases hv : vals[i]? with
    | none => rw [hv] at hp; cases hp
    | some v =>
      rw [hv] at hp
      simp only [List.mem_singleton] at hp
      obtain ⟨hlt, hkey⟩ := List.getElem?_eq_some_iff.mp hk
      exact ⟨hlt, by rw [hp, ← hkey]⟩

/-- `entryAt` blocks have at most one element, hence are pairwise for
any relation. -/
theorem entryAt_pairwise {K V : Type} {keys : List K} {vals : List V} {i : Nat}
    {R : K × V → K × V → Prop} : (entryAt keys vals i).Pairwise R := by
  unfold entryAt
  cases keys[i]? with
  | none => exact List.Pairwise.nil
  | some k =>
    cases vals[i]? with
    | none => exact List.Pairwise.nil
    | some v => simp

/-- Transitivity transport for the optional lower bound. -/
theorem lbOkB_mono {K : Type} [LinearOrder K] {lo : Option K} {a b : K}
    (h1 : lbOkB lo a = true) (h2 : a < b) : lbOkB lo b = true := by
  cases lo with
  | none => rfl
  | some l =>
    simp only [lbOkB, decide_eq_true_eq] at h1 ⊢
    exact lt_trans h1 h2

/-- Transitivity transport for the optional upper bound. -/
theorem ubOkB_mono {K : Type} [LinearOrder K] {hi : Option K} {a b : K}
    (h1 : b < a) (h2 : ubOkB a hi = true) : ubOkB b hi = true := by
  cases hi with
  | none => rfl
  | some u =>
    simp only [ubOkB, decide_eq_true_eq] at h2 ⊢
    exact lt_trans h1 h2

end RustPP

namespace RustPP

/-- The combinatorial heart of in-order correctness: interleaving
per-edge blocks (each sorted and bounded by the adjacent node keys) with
the node's own strictly increasing keys yields a sorted flattening that
stays inside the outer bounds. -/
theorem blocks_pairwise {K V : Type} [LinearOrder K]
    (keys : List K) (vals : List V) (lo hi : Option K)
    (E : Nat → List (K × V))
    (hchain : keys.Pairwise (· < ·))
    (hkb : ∀ k ∈ keys, lbOkB lo k = true ∧ ubOkB k hi = true)
    (hEp : ∀ i, i ≤ keys.length → (E i).Pairwise (fun p q : K × V => p.1 < q.1))
    (hEb : ∀ i, i ≤ keys.length → ∀ p ∈ E i,
        lbOkB (if i = 0 then lo else keys[i - 1]?) p.1 = true
        ∧ ubOkB p.1 (if i = keys.length then hi else keys[i]?) = true) :
    ((List.range (keys.length + 1)).flatMap
        (fun i => E i ++ entryAt keys vals i)).Pairwise (fun p q : K × V => p.1 < q.1)
    ∧ ∀ p ∈ (List.range (keys.length + 1)).flatMap (fun i => E i ++ entryAt keys vals i),
        lbOkB lo p.1 = true ∧ ubOkB p.1 hi = true := by
  have hidx : ∀ (i j : Nat) (hi' : i < keys.length) (hj' : j < keys.length),
      i < j → keys[i] < keys[j] := by
    intro i j hi' hj' hij
    exact List.pairwise_iff_getElem.mp hchain i j hi' hj' hij
  have hEub : ∀ (i : Nat) (h : i < keys.length), ∀ p ∈ E i, p.1 < keys[i] := by
    intro i h p hp
    have h2 := (hEb i (le_of_lt h) p hp).2
    rw [if_neg (Nat.ne_of_lt h), List.getElem?_eq_getElem h] at h2
    simpa [ubOkB] using h2
  have hElb : ∀ (j : Nat) (hj0 : 0 < j) (hjle : j ≤ keys.length)
      (hj1 : j - 1 < keys.length), ∀ q ∈ E j, keys[j - 1] < q.1 := by
    intro j hj0 hjle hj1 q hq
    have h1 := (hEb j hjle q hq).1
    rw [if_neg (by omega : ¬ j = 0), List.getElem?_eq_getElem hj1] at h1
    simpa [lbOkB] using h1
  have hcross : ∀ (i j : Nat), i < j → j ≤ keys.length →
      ∀ p ∈ E i ++ entryAt keys vals i, ∀ q ∈ E j ++ entryAt keys vals j, p.1 < q.1 := by
    intro i j hij hjle p hp q hq
    have hilt : i < keys.length := by omega
    have hpk : p.1 ≤ keys[i] := by
      rcases List.mem_append.mp hp with hpe | hpa
      · exact le_of_lt (hEub i hilt p hpe)
      · obtain ⟨h', hk⟩ := mem_entryAt hpa
        rw [hk]
    have hkq : keys[i] < q.1 := by
      rcases List.mem_append.mp hq with hqe | hqa
      · have hj1 : j - 1 < keys.length := by omega
        have h1 := hElb j (by omega) hjle hj1 q hqe
        have h2 : keys[i] ≤ keys[j - 1] := by
          rcases eq_or_lt_of_le (by omega : i ≤ j - 1) with heq | hlt
          · subst heq
            exact le_rfl
          · exact le_of_lt (hidx i (j - 1) hilt hj1 hlt)
        exact lt_of_le_of_lt h2 h1
      · obtain ⟨hj', hk⟩ := mem_entryAt hqa
        rw [hk]
        exact hidx i j hilt hj' hij
    exact lt_of_le_of_lt hpk hkq
  constructor
  · rw [List.pairwise_flatMap]
    constructor
    · intro a ha
      have hale : a ≤ keys.length := by
        have := List.mem_range.mp ha
        omega
      refine List.pairwise_append.mpr ⟨hEp a hale, entryAt_pairwise, ?_⟩
      intro x hx y hy
      obtain ⟨ha', hk⟩ := mem_entryAt hy
      rw [hk]
      exact hEub a ha' x hx
    · refine (List.pairwise_lt_range _).imp_of_mem ?_
      intro a b ha hb hab
      have hble : b ≤ keys.length := by
        have := List.mem_range.mp hb
        omega
      exact fun x hx y hy => hcross a b hab hble x hx y hy
  · intro p hp
    obtain ⟨i, hi', hpi⟩ := List.mem_flatMap.mp hp
    have hile : i ≤ keys.length := by
      have := List.mem_range.mp hi'
      omega
    rcases List.mem_append.mp hpi with hpe | hpa
    · obtain ⟨hlb, hub⟩ := hEb i hile p hpe
      constructor
      · by_cases h0 : i = 0
        · rw [if_pos h0] at hlb
          exact hlb
        · rw [if_neg h0] at hlb
          have hi1 : i - 1 < keys.length := by omega
          rw [List.getElem?_eq_getElem hi1] at hlb
          have hm := (hkb keys[i - 1] (List.getElem_mem hi1)).1
          have hgt : keys[i - 1] < p.1 := by simpa [lbOkB] using hlb
          exact lbOkB_mono hm hgt
      · by_cases hL : i = keys.length
        · rw [if_pos hL] at hub
          exact hub
        · rw [if_neg hL] at hub
          have hiL : i < keys.length := by omega
          rw [List.getElem?_eq_getElem hiL] at hub
          have hm := (hkb keys[i] (List.getElem_mem hiL)).2
          have hlt : p.1 < keys[i] := by simpa [ubOkB] using hub
          exact ubOkB_mono hlt hm
    · obtain ⟨hi2, hk⟩ := mem_entryAt hpa
      rw [hk]
      exact hkb keys[i] (List.getElem_mem hi2)

/-- In-order correctness of the traversal: on every tree satisfying the
structure's ordering invariant, `children_of_node` produces entries with
strictly increasing keys, all inside the given bounds. -/
theorem wfNode_pairwise {K V : Type} [LinearOrder K] :
    ∀ (h : Nat) (n : BNode K V) (lo hi : Option K),
      wfNode h n lo hi = true →
      (children_of_node h n).Pairwise (fun p q : K × V => p.1 < q.1)
      ∧ ∀ p ∈ children_of_node h n, lbOkB lo p.1 = true ∧ ubOkB p.1 hi = true := by
  intro h
  induction h with
  | zero =>
    intro n lo hi hwf
    obtain ⟨keys, vals, edges⟩ := n
    simp only [wfNode, Bool.and_eq_true, beq_iff_eq, List.all_eq_true] at hwf
    obtain ⟨⟨hlen, hchain⟩, hbk⟩ := hwf
    have hkb : ∀ k ∈ keys, lbOkB lo k = true ∧ ubOkB k hi = true := fun k hk => by
      simpa [Bool.and_eq_true] using hbk k hk
    have hmain := blocks_pairwise keys vals lo hi (fun _ => [])
      (boolChain_pairwise hchain) hkb (fun _ _ => List.Pairwise.nil)
      (by intro i hle p hp; cases hp)
    simp only [children_of_node]
    simpa using hmain
  | succ h ih =>
    intro n lo hi hwf
    obtain ⟨keys, vals, edges⟩ := n
    simp only [wfNode, Bool.and_eq_true, beq_iff_eq, List.all_eq_true] at hwf
    obtain ⟨⟨⟨⟨hlen, hchain⟩, hbk⟩, hedges⟩, hall⟩ := hwf
    have hkb : ∀ k ∈ keys, lbOkB lo k = true ∧ ubOkB k hi = true := fun k hk => by
      simpa [Bool.and_eq_true] using hbk k hk
    have hwfE : ∀ i, i ≤ keys.length → ∃ e, edges[i]? = some e
        ∧ wfNode h e (if i = 0 then lo else keys[i - 1]?)
            (if i = keys.length then hi else keys[i]?) = true := by
      intro i hile
      have hilt : i < edges.length := by rw [hedges]; omega
      refine ⟨edges[i], List.getElem?_eq_getElem hilt, ?_⟩
      have hi := hall i (List.mem_range.mpr (by omega))
      rw [List.getElem?_eq_getElem hilt] at hi
      exact hi
    have hEp : ∀ i, i ≤ keys.length →
        (match edges[i]? with
         | some e => children_of_node h e
         | none => []).Pairwise (fun p q : K × V => p.1 < q.1) := by
      intro i hile
      obtain ⟨e, he, hwe⟩ := hwfE i hile
      rw [he]
      exact (ih e _ _ hwe).1
    have hEb : ∀ i, i ≤ keys.length →
        ∀ p ∈ (match edges[i]? with
               | some e => children_of_node h e
               | none => []),
          lbOkB (if i = 0 then lo else keys[i - 1]?) p.1 = true
          ∧ ubOkB p.1 (if i = keys.length then hi else keys[i]?) = true := by
      intro i hile p hp
      obtain ⟨e, he, hwe⟩ := hwfE i hile
      rw [he] at hp
      exact (ih e _ _ hwe).2 p hp
    have hmain := blocks_pairwise keys vals lo hi _
      (boolChain_pairwise hchain) hkb hEp hEb
    simpa [children_of_node] using hmain

/-- The two-level tree of the amended example: root keys [10, 20] with
the three children [5], [15], [25] required by the len+1-edges shape. -/
def exampleTree : BNode Int Int :=
  .mk [10, 20] [100, 200]
    [.mk [5] [50] [], .mk [15] [150] [], .mk [25] [250] []]

/-- The tree exactly as the spec's example describes it: root keys
[10, 20] with only the two children [5] and [15, 25]. -/
def specExampleTree : BNode Int Int :=
  .mk [10, 20] [100, 200]
    [.mk [5] [50] [], .mk [15, 25] [150, 250] []]

/-- C3 counterexample: on the spec's own example tree (root [10, 20],
two children [5] and [15, 25]) the traversal yields the key order
[5, 10, 15, 25, 20] — the claimed in-order sequence [5, 10, 15, 20, 25]
does not come out, because the keys 15 and 25 both live in the middle
edge, which is visited before the root key 20. -/
theorem btree_spec_example_not_inorder :
    (children_of_node 1 specExampleTree).map Prod.fst = [5, 10, 15, 25, 20]
    ∧ (children_of_node 1 specExampleTree).map Prod.fst ≠ [5, 10, 15, 20, 25] := by
  decide

/-- C3 (amended).  The traversal visits, for i in 0..=len, edge i first
when the node is internal and then yields pair i when i < len (stated as
the definitional unfolding); on every tree satisfying the ordering
invariant the flattened key sequence is strictly ascending; count()
equals the total number of pairs found; and the two-level tree with root
keys [10, 20] and the three children [5], [15], [25] (a root with two
keys needs len+1 = 3 children; the spec's two-child variant is the
counterexample above) yields the key order [5, 10, 15, 20, 25]. -/
theorem btree_traversal_sorted_and_counted :
    (∀ (K V : Type) [LinearOrder K] (hh : Nat) (n : BNode K V),
        wfNode hh n none none = true →
        ((children_of_node hh n).map Prod.fst).Pairwise (· < ·))
    ∧ (∀ (K V : Type) (old : StdBTreeMapSyntheticProvider K V) (mem : BTreeMemory K V),
        (old.update mem).num_children = (children_of_node mem.height mem.root).length)
    ∧ (∀ (K V : Type) (hh : Nat) (keys : List K) (vals : List V)
          (edges : List (BNode K V)),
        children_of_node (hh + 1) (BNode.mk keys vals edges)
          = (List.range (keys.length + 1)).flatMap (fun i =>
              (match edges[i]? with
               | some e => children_of_node hh e
               | none => []) ++ entryAt keys vals i))
    ∧ (children_of_node 1 exampleTree).map Prod.fst = [5, 10, 15, 20, 25] := by
  refine ⟨?_, ?_, ?_, by decide⟩
  · intro K V _inst hh n hwf
    rw [List.pairwise_map]
    exact (wfNode_pairwise hh n none none hwf).1
  · intro K V old mem
    simp [StdBTreeMapSyntheticProvider.update, StdBTreeMapSyntheticProvider.num_children]
  · intro K V hh keys vals edges
    rfl

/-- C3 witness: the in-order sortedness applied to the concrete
well-formed two-level tree. -/
theorem btree_traversal_sorted_witness :
    ((children_of_node 1 exampleTree).map Prod.fst).Pairwise
      ((· < ·) : Int → Int → Prop) :=
  btree_traversal_sorted_and_counted.1 Int Int 1 exampleTree (by decide)

end RustPP

